import Mathlib

/-!
Verification of the clipai repository's specification against its source.

The repository's `src/` tree contains the TypeScript frontend
(`frontend/src/components/*.tsx` and the unnamed component files); the
Python backend (scoring engine, export job engine, preset resolver, batch
orchestrator) is not present under `src/`.  Frontend functions are embedded
directly from their TypeScript source; backend behaviour cited only through
the spec is modelled from the spec and marked `Modelled from the spec:` in
its doc comment.

JavaScript numbers are modelled as `ℚ` (the values manipulated here are
exact in IEEE double arithmetic on the ranges involved: `Math.floor`,
`%` with a positive modulus on non-negative inputs, comparisons, and
integer-step counters are all exact).
-/

/-! ### Embedding of `formatTime` (clips-manager.tsx lines 79-83, part_004 lines 71-75)

```js
const formatTime = (seconds) => {
  const mins = Math.floor(seconds / 60);
  const secs = Math.floor(seconds % 60);
  return `${mins}:${secs.toString().padStart(2, "0")}`;
};
```
For non-negative `seconds`, JavaScript `seconds % 60` equals
`seconds - 60 * Math.floor(seconds / 60)`. -/

/-- JavaScript `String.prototype.padStart(2, "0")`: left-pad with the
character 0 until the length is at least 2. -/
def padStart2 (s : String) : String :=
  if s.length < 2 then String.mk (List.replicate (2 - s.length) '0') ++ s else s

/-- `formatTime` from clips-manager.tsx / part_004, on non-negative rationals
(JS `%` and floored division agree with the floor forms there). -/
def formatTime (s : ℚ) : String :=
  let mins : ℤ := ⌊s / 60⌋
  let secs : ℤ := ⌊s - 60 * ⌊s / 60⌋⌋
  mins.toNat.repr ++ ":" ++ padStart2 secs.toNat.repr

/-! ### Embedding of `VideoSubtitles` subtitle selection (part_007 lines 38-53)

```js
if (!segments || segments.length === 0) { setCurrentText(""); return; }
const currentSegment = segments.find(
  (seg) => currentTime >= seg.start_time && currentTime <= seg.end_time
);
if (currentSegment) { setCurrentText(currentSegment.text); }
else { setCurrentText(""); }
```
-/

/-- A word segment as declared in part_007 / part_003 / part_006. -/
structure WordSegment where
  text : String
  start_time : ℚ
  end_time : ℚ

/-- The `segments.find(...)` call of part_007 line 44. -/
def findCurrentSegment (segments : List WordSegment) (t : ℚ) : Option WordSegment :=
  segments.find? (fun seg => decide (seg.start_time ≤ t) && decide (t ≤ seg.end_time))

/-- The subtitle text computed by the effect of part_007 lines 38-53:
empty when segments are absent or empty, otherwise the text of the first
segment containing the current time, otherwise empty. -/
def currentSubtitleText (segments : Option (List WordSegment)) (t : ℚ) : String :=
  match segments with
  | none => ""
  | some segs =>
    if segs.length = 0 then ""
    else
      match findCurrentSegment segs t with
      | some seg => seg.text
      | none => ""

/-! ### Quality presets (clips-manager.tsx lines 48-58) and the resolver
(backend not under `src/`; modelled from the spec, §4.4). -/

/-- One entry of the `quality_presets` array in clips-manager.tsx. -/
structure PresetEntry where
  id : String
  name : String
  icon : String
deriving DecidableEq

/-- The `quality_presets` constant of clips-manager.tsx lines 48-58. -/
def quality_presets : List PresetEntry :=
  [⟨"tiktok", "TikTok", "smartphone"⟩,
   ⟨"instagram_reels", "Instagram Reels", "instagram"⟩,
   ⟨"youtube_shorts", "YouTube Shorts", "youtube"⟩,
   ⟨"youtube_standard", "YouTube (HD)", "youtube"⟩,
   ⟨"twitter", "Twitter/X", "twitter"⟩,
   ⟨"linkedin", "LinkedIn", "linkedin"⟩,
   ⟨"high_quality", "High Quality", "hd"⟩,
   ⟨"balanced", "Balanced", "activity"⟩,
   ⟨"fast", "Fast Export", "zap"⟩]

/-- A quality preset as described in spec §3 (name, resolution, fps,
bitrates, encoder preset, hardware-acceleration flag). -/
structure QualityPreset where
  name : String
  width : ℕ
  height : ℕ
  fps : ℕ
  video_bitrate : ℕ
  audio_bitrate : ℕ
  encoder_preset : String
  use_hardware_accel : Bool
deriving DecidableEq

/-- One entry of the `quality_presets` array in app-sidebar.tsx (its copy
of ClipsManager), which also carries a `description` with the encode
constants. -/
structure SidebarPresetEntry where
  id : String
  name : String
  icon : String
  description : String
deriving DecidableEq

/-- The ten-entry `quality_presets` constant of app-sidebar.tsx lines
273-284.  Note it has a `facebook` entry that the nine-entry copy in
clips-manager.tsx omits. -/
def sidebar_quality_presets : List SidebarPresetEntry :=
  [⟨"tiktok", "TikTok", "smartphone", "9:16, 60fps, 8000k"⟩,
   ⟨"instagram_reels", "Instagram Reels", "instagram", "9:16, 60fps, 8000k"⟩,
   ⟨"youtube_shorts", "YouTube Shorts", "youtube", "9:16, 60fps, 8000k"⟩,
   ⟨"youtube_standard", "YouTube (HD)", "youtube", "16:9, 30fps, 5000k"⟩,
   ⟨"twitter", "Twitter/X", "twitter", "1280x720, 30fps, 3000k"⟩,
   ⟨"linkedin", "LinkedIn", "linkedin", "1280x720, 30fps, 3000k"⟩,
   ⟨"facebook", "Facebook", "facebook", "1920x1080, 30fps, 4000k"⟩,
   ⟨"high_quality", "High Quality", "hd", "1080p, 60fps, 10000k"⟩,
   ⟨"balanced", "Balanced", "activity", "720p, 30fps, 3000k"⟩,
   ⟨"fast", "Fast Export", "zap", "720p, 30fps, 2500k"⟩]

/-- Modelled from the spec: the Quality Preset Resolver's fixed catalog
(§4.4) is missing from `src/`.  Its ten entries and their
resolution/fps/video-bitrate constants are those attested by the
`quality_presets` array of app-sidebar.tsx lines 273-284 and by
part_010's description of `backend/services/quality_presets.py`
(TikTok 1080x1920 60fps 8000k, ..., Facebook 1920x1080 30fps 4000k, ...);
audio bitrate, encoder preset and the hardware-acceleration flag are not
attested and are placeholders.  The nine-entry `quality_presets` copy in
clips-manager.tsx omits the `facebook` entry. -/
def presetCatalog : List QualityPreset :=
  [⟨"tiktok", 1080, 1920, 60, 8000, 128, "medium", false⟩,
   ⟨"instagram_reels", 1080, 1920, 60, 8000, 128, "medium", false⟩,
   ⟨"youtube_shorts", 1080, 1920, 60, 8000, 128, "medium", false⟩,
   ⟨"youtube_standard", 1920, 1080, 30, 5000, 128, "medium", false⟩,
   ⟨"twitter", 1280, 720, 30, 3000, 128, "medium", false⟩,
   ⟨"linkedin", 1280, 720, 30, 3000, 128, "medium", false⟩,
   ⟨"facebook", 1920, 1080, 30, 4000, 128, "medium", false⟩,
   ⟨"high_quality", 1920, 1080, 60, 10000, 128, "medium", false⟩,
   ⟨"balanced", 1280, 720, 30, 3000, 128, "medium", false⟩,
   ⟨"fast", 1280, 720, 30, 2500, 128, "medium", false⟩]

/-- The error taxonomy entry relevant to preset resolution (spec §7). -/
inductive ExportError where
  | UnknownPreset : ExportError
deriving DecidableEq

/-- Modelled from the spec: `resolve(name) -> QualityPreset`, a pure lookup
that fails with `UnknownPreset` for a name outside the fixed catalog
(§4.4); the resolver itself is not under `src/`. -/
def resolvePreset (name : String) : Except ExportError QualityPreset :=
  match presetCatalog.find? (fun p => p.name == name) with
  | some p => .ok p
  | none => .error .UnknownPreset

/-! ### Export job state machine (spec §4.5; backend not under `src/`). -/

/-- The export job states of spec §4.5. -/
inductive JobState where
  | queued
  | rendering
  | completed
  | failed
deriving DecidableEq

/-- An export job record (spec §3 `ExportJob`, fields relevant to the
claims). -/
structure ExportJob where
  id : String
  clip_id : String
  presetName : String
  state : JobState
  progress : ℚ
  message : String
  error : Option String
  artifact_path : Option String
deriving DecidableEq

/-- Modelled from the spec: `submit_export(clip_id, preset_name, options)`
(§6) resolves the preset first and creates a job in `queued` state; an
`UnknownPreset` error fails the call and creates no ExportJob
("no ExportJob created", §8 scenario). -/
def submitExport (jobs : List ExportJob) (jobId clipId presetName : String) :
    Except ExportError (List ExportJob) :=
  match resolvePreset presetName with
  | .error e => .error e
  | .ok p => .ok (jobs ++ [⟨jobId, clipId, p.name, .queued, 0, "", none, none⟩])

/-! ### Scoring engine (spec §4.1; backend not under `src/`).  The frontend
`Clip` interface (clips-manager.tsx lines 13-25) declares the sub-scores
`semantic_score?`, `heuristic_score?`, `audio_score?`, `visual_score?` as
optional, matching the spec's "each in [0,100] or absent". -/

/-- The per-candidate score breakdown: one optional sub-score per extractor,
with the optional fields of the frontend `Clip` interface. -/
structure ScoreBreakdown where
  semantic_score : Option ℚ
  heuristic_score : Option ℚ
  audio_score : Option ℚ
  visual_score : Option ℚ
deriving DecidableEq

/-- Fixed default semantic weight 0.40 (spec §4.1). -/
def wSemantic : ℚ := 40 / 100

/-- Fixed default heuristic weight 0.25 (spec §4.1). -/
def wHeuristic : ℚ := 25 / 100

/-- Fixed default audio weight 0.20 (spec §4.1). -/
def wAudio : ℚ := 20 / 100

/-- Fixed default visual weight 0.15 (spec §4.1). -/
def wVisual : ℚ := 15 / 100

/-- The (weight, value) pairs of the extractors that produced a value, in
the fixed order semantic, heuristic, audio, visual. -/
def presentPairs (b : ScoreBreakdown) : List (ℚ × ℚ) :=
  ([(wSemantic, b.semantic_score), (wHeuristic, b.heuristic_score),
    (wAudio, b.audio_score), (wVisual, b.visual_score)]).filterMap
    (fun wp => wp.2.map (fun v => (wp.1, v)))

/-- Modelled from the spec: the Scoring Engine's composite score (§4.1) is
the weighted sum over present sub-scores with the fixed default weights
renormalized over only the present extractors; with no extractor present
the engine fails (`NoSignalAvailable`), modelled as `none`.  The engine
itself is not under `src/`. -/
def compositeScore (b : ScoreBreakdown) : Option ℚ :=
  match presentPairs b with
  | [] => none
  | ps => some ((ps.map (fun wp => wp.1 * wp.2)).sum / (ps.map Prod.fst).sum)

/-- Modelled from the spec: one transition of the Export Job Engine state
machine (§4.5).  `queued → rendering` when a worker picks the job up;
while `rendering` the engine emits non-decreasing progress updates in
[0,100] with a stage message; `rendering → completed` records the artifact
path; `rendering → failed` (renderer error, timeout or cancellation)
captures the renderer's error verbatim into `error` and `message`.  The
engine is not under `src/`. -/
inductive JobStep : ExportJob → ExportJob → Prop where
  | start (j : ExportJob) (h : j.state = .queued) :
      JobStep j { j with state := .rendering }
  | progressUpdate (j : ExportJob) (p : ℚ) (m : String)
      (h : j.state = .rendering) (hmono : j.progress ≤ p) (hub : p ≤ 100) :
      JobStep j { j with progress := p, message := m }
  | complete (j : ExportJob) (path : String) (h : j.state = .rendering) :
      JobStep j { j with state := .completed, artifact_path := some path }
  | fail (j : ExportJob) (e : String) (h : j.state = .rendering) :
      JobStep j { j with state := .failed, error := some e, message := e }

/-- An observation step: either the engine takes a transition or the record
is unchanged (a `get_export_status` snapshot between transitions). -/
def JobObsStep (j j' : ExportJob) : Prop := JobStep j j' ∨ j' = j

/-- A job created in `queued` state with progress 0 (spec §3/§4.5). -/
def initialJob (j : ExportJob) : Prop := j.state = .queued ∧ j.progress = 0

/-- A run of the export job engine: the observed record sequence starting
from a freshly submitted job. -/
def JobRun (j0 : ExportJob) (js : List ExportJob) : Prop :=
  initialJob j0 ∧ List.Chain JobObsStep j0 js

/-- The simulated per-clip progress values of `handleExportSelected`
(clips-manager.tsx lines 121-124): `for (let i = 0; i <= 100; i += 10)`. -/
def clipsManagerSimulatedProgress : List ℕ := (List.range 11).map (· * 10)

/-- The status payload read by the export poller (part_004 lines 178-184):
`status`, `progress`, `message`, `download_url`. -/
structure StatusResponse where
  status : String
  progress : ℚ
  message : String
  download_url : Option String

/-- The client-side export state of `ClipCard` (part_004 lines 64-67). -/
structure ClientExportState where
  exporting : Bool
  exportProgress : ℚ
  exportMessage : String
  downloadUrl : Option String

/-- Embeds one round of `pollProgress` (part_004 lines 178-190): record
`status.progress` and `status.message`, then branch on `status.status`;
on `"completed"` stop and keep the download url, on `"failed"` stop and
overwrite the message with `"Export failed"`, otherwise schedule another
poll.  The returned Bool is whether another poll is scheduled. -/
def pollProgressUpdate (c : ClientExportState) (s : StatusResponse) :
    ClientExportState × Bool :=
  let c1 := { c with exportProgress := s.progress, exportMessage := s.message }
  if s.status == "completed" then
    ({ c1 with exporting := false, downloadUrl := s.download_url }, false)
  else if s.status == "failed" then
    ({ c1 with exporting := false, exportMessage := "Export failed" }, false)
  else (c1, true)

/-- Embeds the re-poll decision of `pollJobStatus` (video-upload.tsx lines
234-241): no further poll on `"completed"`, none on `"failed"`, otherwise
(the `data.status !== "failed"` guard) poll again after 2000 ms. -/
def pollJobStatusContinues (status : String) : Bool :=
  if status == "completed" then false
  else if status == "failed" then false
  else if status != "failed" then true
  else false

/-- The wire form of a job state as polled by the clients. -/
def statusString : JobState → String
  | .queued => "queued"
  | .rendering => "rendering"
  | .completed => "completed"
  | .failed => "failed"

/-- Concrete run used as a witness: a freshly submitted job. -/
def jobW0 : ExportJob := ⟨"job-1", "clip-1", "tiktok", .queued, 0, "", none, none⟩

/-- Witness run: the job picked up by a worker. -/
def jobW1 : ExportJob := { jobW0 with state := JobState.rendering }

/-- Witness run: a progress update while rendering. -/
def jobW2 : ExportJob := { jobW1 with progress := 50, message := "encoding" }

/-- Witness run: the completed job. -/
def jobW3 : ExportJob :=
  { jobW2 with state := JobState.completed, artifact_path := some "out.mp4" }

/-! ### Batch orchestrator (spec §4.6; backend not under `src/`). -/

/-- The batch rollup statuses of spec §4.6. -/
inductive BatchStatus where
  | pending
  | in_progress
  | completed
  | partial_failure
  | failed
deriving DecidableEq

/-- Modelled from the spec: the derived batch rollup (§4.6), computed on
demand from the referenced jobs' states: `pending` while any job is
queued, `in_progress` while any is rendering, `completed` only when every
job completed, `failed` when all failed, `partial_failure` otherwise. -/
def batchRollup (states : List JobState) : BatchStatus :=
  if states.any (fun s => s == JobState.queued) then .pending
  else if states.any (fun s => s == JobState.rendering) then .in_progress
  else if states.all (fun s => s == JobState.completed) then .completed
  else if states.all (fun s => s == JobState.failed) then .failed
  else .partial_failure

/-- Modelled from the spec: one export job's terminal outcome given the
renderer result — a renderer error is captured as job data (`failed`),
never rethrown (§4.6, §7: "individual job failure is data, not an
exception"). -/
def runJob (render : String → Except String String) (cid : String) : JobState :=
  match render cid with
  | .ok _ => .completed
  | .error _ => .failed

/-- Modelled from the spec: the batch runs each job independently and
returns all terminal states; the batch call is total. -/
def runBatch (render : String → Except String String)
    (clip_ids : List String) : List JobState :=
  clip_ids.map (runJob render)

/-- The §8 scenario renderer: job 2 raises a render error, the others
succeed. -/
def renderFailsClip2 : String → Except String String :=
  fun cid => if cid == "clip2" then .error "render error on clip2"
    else .ok (cid ++ ".mp4")

/-! ### Bounded worker pool (spec §4.6; backend not under `src/`) and the
sequential export loop of `handleExportSelected` (clips-manager.tsx lines
108-134). -/

/-- The number of jobs currently rendering. -/
def countRendering (js : List JobState) : ℕ :=
  js.countP (fun s => s == JobState.rendering)

/-- Modelled from the spec: one scheduling step of the bounded worker pool
(§4.6): a queued job is picked up only while fewer than N jobs are
rendering; a rendering job finishes to `completed` or `failed`. -/
inductive PoolStep (N : ℕ) : List JobState → List JobState → Prop where
  | pickup (js : List JobState) (i : ℕ) (hi : i < js.length)
      (hq : js.get ⟨i, hi⟩ = JobState.queued) (hc : countRendering js < N) :
      PoolStep N js (js.set i JobState.rendering)
  | finish (js : List JobState) (i : ℕ) (hi : i < js.length)
      (hr : js.get ⟨i, hi⟩ = JobState.rendering) (t : JobState)
      (ht : t = JobState.completed ∨ t = JobState.failed) :
      PoolStep N js (js.set i t)

/-- A `setExportStatus` update (clips-manager.tsx lines 117, 126): the
status map with one clip's status replaced. -/
def setStatus (m : String → Option String) (c v : String) :
    String → Option String :=
  fun x => if x = c then some v else m x

/-- The sequence of `exportStatus` maps produced by the loop of
`handleExportSelected` (clips-manager.tsx lines 116-127): for each
selected clip in order, the clip is set to "processing", its simulated
progress runs, and it is set to "completed" before the next clip
starts. -/
def exportLoopTrace (m : String → Option String) :
    List String → List (String → Option String)
  | [] => [m]
  | c :: rest =>
      m :: setStatus m c "processing" ::
        exportLoopTrace (setStatus (setStatus m c "processing") c "completed") rest

/-- How many of the given clips a status map shows as "processing". -/
def countProcessing (ids : List String) (m : String → Option String) : ℕ :=
  ids.countP (fun c => m c == some "processing")

/-! ### Upload client state machine (video-upload.tsx lines 52-144). -/

/-- The per-file fields of `UploadedFile` driven by `uploadFile`
(video-upload.tsx lines 26-33). -/
structure UFile where
  progress : ℕ
  status : String
deriving DecidableEq

/-- Embeds the state changes of `uploadFile` (video-upload.tsx lines
89-141) for one file: the 200 ms interval adds 10 while `progress < 90`
(and leaves the file unchanged otherwise); a successful server response
sets progress 100 and status "processing"; a request error sets status
"error" and leaves progress untouched.  The response steps fire from the
in-flight ("uploading") phase. -/
inductive UploadStep : UFile → UFile → Prop where
  | tickLow (f : UFile) (h : f.progress < 90) :
      UploadStep f { f with progress := f.progress + 10 }
  | tickHigh (f : UFile) (h : ¬ f.progress < 90) :
      UploadStep f f
  | success (f : UFile) (h : f.status = "uploading") :
      UploadStep f { f with progress := 100, status := "processing" }
  | failure (f : UFile) (h : f.status = "uploading") :
      UploadStep f { f with status := "error" }

/-- A file freshly added by `onDrop` (video-upload.tsx lines 53-58):
progress 0, status "uploading". -/
def initialUpload (f : UFile) : Prop := f.progress = 0 ∧ f.status = "uploading"

/-- A run of one file's upload lifecycle. -/
def UploadRun (f0 : UFile) (fs : List UFile) : Prop :=
  initialUpload f0 ∧ List.Chain UploadStep f0 fs

/-- Status absorption relation: once "error" or "processing", the status
stays. -/
def uploadAbsorbed (a b : UFile) : Prop :=
  (a.status = "error" → b.status = "error") ∧
  (a.status = "processing" → b.status = "processing")

instance : IsTrans UFile uploadAbsorbed :=
  ⟨fun a b c hab hbc =>
    ⟨fun h => hbc.1 (hab.1 h), fun h => hbc.2 (hab.2 h)⟩⟩

/-- Concrete upload run used as a witness: one tick, then a request
error. -/
def uW0 : UFile := ⟨0, "uploading"⟩

/-- Witness upload run, after one interval tick. -/
def uW1 : UFile := ⟨10, "uploading"⟩

/-- Witness upload run, after the request error. -/
def uW2 : UFile := ⟨10, "error"⟩

/-! ## Helper lemmas -/

theorem list_find?_first {α : Type} (p : α → Bool) (l : List α) (i : Fin l.length)
    (hp : p (l.get i) = true)
    (hmin : ∀ j : Fin l.length, (j : ℕ) < (i : ℕ) → p (l.get j) = false) :
    l.find? p = some (l.get i) := by
  induction l with
  | nil => exact absurd i.isLt (by simp)
  | cons a tl ih =>
    rcases i with ⟨iv, hi⟩
    cases iv with
    | zero =>
      simp only [List.get] at hp
      simp [List.find?, hp]
    | succ k =>
      have ha : p a = false := hmin ⟨0, by simp⟩ (Nat.succ_pos k)
      have hk : k < tl.length := Nat.lt_of_succ_lt_succ hi
      have := ih ⟨k, hk⟩ hp (fun j hj => hmin ⟨j + 1, Nat.succ_lt_succ j.isLt⟩
        (Nat.succ_lt_succ hj))
      simp only [List.find?, ha]
      exact this

theorem padStart2_length_two (n : ℕ) (hn : n < 60) :
    (padStart2 n.repr).length = 2 := by
  interval_cases n <;> rfl

/-! ## Claim theorems -/

/-- C10: for every non-negative rational number of seconds `s`,
`formatTime s` is the decimal of `⌊s / 60⌋`, a colon, and the two-digit
zero-padded decimal of `⌊s mod 60⌋`; the seconds field always has exactly
two digits, and for `s < 60` the result starts with `"0:"`. -/
theorem c10_formatTime_shape (s : ℚ) (hs : 0 ≤ s) :
    formatTime s =
      (⌊s / 60⌋).toNat.repr ++ ":" ++ padStart2 ((⌊s - 60 * ⌊s / 60⌋⌋).toNat.repr)
    ∧ (padStart2 ((⌊s - 60 * ⌊s / 60⌋⌋).toNat.repr)).length = 2
    ∧ (s < 60 → ∃ rest : String, formatTime s = "0:" ++ rest) := by
  have hfrac0 : (0 : ℚ) ≤ s - 60 * ⌊s / 60⌋ := by
    have h := Int.fract_nonneg (s / 60)
    have : s - 60 * ⌊s / 60⌋ = 60 * Int.fract (s / 60) := by
      rw [Int.fract]; ring
    rw [this]; positivity
  have hfrac60 : s - 60 * ⌊s / 60⌋ < 60 := by
    have h := Int.fract_lt_one (s / 60)
    have heq : s - 60 * ⌊s / 60⌋ = 60 * Int.fract (s / 60) := by
      rw [Int.fract]; ring
    rw [heq]
    nlinarith
  have hsecs : (⌊s - 60 * ⌊s / 60⌋⌋).toNat < 60 := by
    have h3 : (⌊s - 60 * ⌊s / 60⌋⌋ : ℚ) ≤ s - 60 * ⌊s / 60⌋ := Int.floor_le _
    have h4 : (⌊s - 60 * ⌊s / 60⌋⌋ : ℚ) < 60 := lt_of_le_of_lt h3 hfrac60
    have h5 : ⌊s - 60 * ⌊s / 60⌋⌋ < 60 := by exact_mod_cast h4
    omega
  refine ⟨rfl, padStart2_length_two _ hsecs, fun hlt => ?_⟩
  have hdiv0 : ⌊s / 60⌋ = 0 := by
    rw [Int.floor_eq_zero_iff]
    apply Set.mem_Ico.mpr
    refine ⟨by positivity, ?_⟩
    rw [div_lt_one (by norm_num : (0 : ℚ) < 60)]
    exact hlt
  refine ⟨padStart2 ((⌊s - 60 * ⌊s / 60⌋⌋).toNat.repr), ?_⟩
  show (⌊s / 60⌋).toNat.repr ++ ":" ++ _ = _
  rw [hdiv0]
  rw [String.append_assoc]
  rfl

/-- Witness for C10 at `s = 125`: `formatTime 125 = "2:05"`. -/
theorem c10_formatTime_shape_witness :
    (0 : ℚ) ≤ 125 ∧
    (formatTime 125 =
      (⌊(125 : ℚ) / 60⌋).toNat.repr ++ ":" ++
        padStart2 ((⌊(125 : ℚ) - 60 * ⌊(125 : ℚ) / 60⌋⌋).toNat.repr)
    ∧ (padStart2 ((⌊(125 : ℚ) - 60 * ⌊(125 : ℚ) / 60⌋⌋).toNat.repr)).length = 2
    ∧ ((125 : ℚ) < 60 → ∃ rest : String, formatTime 125 = "0:" ++ rest)) :=
  ⟨by norm_num, c10_formatTime_shape 125 (by norm_num)⟩

/-- C8: the subtitle text displayed by `VideoSubtitles` is the text of the
first segment in list order whose interval contains the playback time, and
the empty string when no segment contains it, the list is empty, or the
list is absent. -/
theorem c8_subtitle_text (t : ℚ) (l : List WordSegment) :
    currentSubtitleText none t = ""
    ∧ currentSubtitleText (some []) t = ""
    ∧ ((∀ seg ∈ l, ¬ (seg.start_time ≤ t ∧ t ≤ seg.end_time)) →
        currentSubtitleText (some l) t = "")
    ∧ (∀ i : Fin l.length,
        (l.get i).start_time ≤ t → t ≤ (l.get i).end_time →
        (∀ j : Fin l.length, (j : ℕ) < (i : ℕ) →
          ¬ ((l.get j).start_time ≤ t ∧ t ≤ (l.get j).end_time)) →
        currentSubtitleText (some l) t = (l.get i).text) := by
  refine ⟨rfl, rfl, ?_, ?_⟩
  · intro hno
    cases l with
    | nil => rfl
    | cons a tl =>
      have hfind : findCurrentSegment (a :: tl) t = none := by
        apply List.find?_eq_none.mpr
        intro seg hseg
        simp only [Bool.and_eq_true, decide_eq_true_eq]
        intro hcontr
        exact hno seg hseg hcontr
      unfold currentSubtitleText
      simp [hfind]
  · intro i hst hend hmin
    have hlen : l.length ≠ 0 := by
      intro h0
      exact absurd i.isLt (by omega)
    have hfind : findCurrentSegment l t = some (l.get i) := by
      apply list_find?_first
      · simp only [Bool.and_eq_true, decide_eq_true_eq]
        exact ⟨hst, hend⟩
      · intro j hj
        have hnotj := hmin j hj
        rcases Bool.eq_false_or_eq_true
            (decide ((l.get j).start_time ≤ t) && decide (t ≤ (l.get j).end_time)) with
          h | h
        · simp only [Bool.and_eq_true, decide_eq_true_eq] at h
          exact absurd h hnotj
        · exact h
    unfold currentSubtitleText
    simp [hlen, hfind]

/-- Witness for C8 at a concrete segment list and time:
with segments `[hello: [0,1], world: [1,2]]` and `t = 1`, the first
matching segment is `hello`. -/
theorem c8_subtitle_text_witness :
    currentSubtitleText
      (some [⟨"hello", 0, 1⟩, ⟨"world", 1, 2⟩]) 1 = "hello" := by
  have h := (c8_subtitle_text 1 [⟨"hello", 0, 1⟩, ⟨"world", 1, 2⟩]).2.2.2
  have := h ⟨0, by norm_num⟩ (by norm_num) (by norm_num)
    (fun j hj => absurd hj (Nat.not_lt_zero j))
  simpa using this

theorem list_sum_map_div (l : List (ℚ × ℚ)) (d : ℚ) :
    (l.map (fun wp => wp.1 / d)).sum = (l.map Prod.fst).sum / d := by
  induction l with
  | nil => simp
  | cons p tl ih => simp [ih, add_div]

theorem list_sum_map_div_mul (l : List (ℚ × ℚ)) (d : ℚ) :
    (l.map (fun wp => (wp.1 / d) * wp.2)).sum = (l.map (fun wp => wp.1 * wp.2)).sum / d := by
  induction l with
  | nil => simp
  | cons p tl ih =>
    simp only [List.map_cons, List.sum_cons, ih, add_div]
    ring_nf

theorem presentPairs_weight_pos (b : ScoreBreakdown) :
    ∀ wp ∈ presentPairs b, 0 < wp.1 := by
  intro wp hwp
  simp only [presentPairs, List.mem_filterMap] at hwp
  rcases hwp with ⟨⟨w, ov⟩, hmem, hmap⟩
  rcases ov with _ | v
  · simp at hmap
  · simp only [Option.map_some'] at hmap
    have hwp2 : (w, v) = wp := by injection hmap
    subst hwp2
    show 0 < w
    simp only [List.mem_cons, List.mem_singleton, Prod.mk.injEq] at hmem
    rcases hmem with ⟨h1, _⟩ | ⟨h1, _⟩ | ⟨h1, _⟩ | ⟨h1, _⟩ | h1
    · rw [h1]; norm_num [wSemantic]
    · rw [h1]; norm_num [wHeuristic]
    · rw [h1]; norm_num [wAudio]
    · rw [h1]; norm_num [wVisual]
    · exact absurd h1 (List.not_mem_nil _)

theorem compositeScore_eq_div (b : ScoreBreakdown) (hne : presentPairs b ≠ []) :
    compositeScore b =
      some (((presentPairs b).map (fun wp => wp.1 * wp.2)).sum /
        ((presentPairs b).map Prod.fst).sum) := by
  unfold compositeScore
  cases hps : presentPairs b with
  | nil => exact absurd hps hne
  | cons p tl => rfl

theorem scenarioPairs :
    presentPairs ⟨some 80, some 60, none, some 40⟩ =
      [(wSemantic, 80), (wHeuristic, 60), (wVisual, 40)] := by
  simp [presentPairs]

theorem scenarioPairs_ne : presentPairs ⟨some 80, some 60, none, some 40⟩ ≠ [] := by
  rw [scenarioPairs]
  simp

theorem scenarioComposite :
    compositeScore ⟨some 80, some 60, none, some 40⟩ = some (265 / 4) := by
  rw [compositeScore_eq_div _ scenarioPairs_ne, scenarioPairs]
  simp only [List.map_cons, List.map_nil, List.sum_cons, List.sum_nil]
  norm_num [wSemantic, wHeuristic, wVisual]

/-- C1 counterexample: for the scenario input
`{semantic = 80, heuristic = 60, audio unavailable, visual = 40}` the
renormalized composite is exactly `265/4 = 66.25`, which is neither within
`1e-6` of `62.8` nor within `1e-6` of
`80*(0.40/0.85)+60*(0.25/0.85)+40*(0.15/0.85)`: the claim's value `62.8`
(and its renormalization denominator `0.85`) are wrong, since the present
weights sum to `0.40+0.25+0.15 = 0.80`. -/
theorem c1_score_scenario_counterexample :
    compositeScore ⟨some 80, some 60, none, some 40⟩ = some (265 / 4)
    ∧ ¬ |(265 / 4 : ℚ) - 628 / 10| ≤ 1 / 1000000
    ∧ ¬ |(265 / 4 : ℚ) -
          (80 * (wSemantic / (85 / 100)) + 60 * (wHeuristic / (85 / 100))
            + 40 * (wVisual / (85 / 100)))| ≤ 1 / 1000000 := by
  refine ⟨scenarioComposite, ?_, ?_⟩
  · rw [abs_le]
    push_neg
    intro h
    norm_num
  · rw [abs_le]
    push_neg
    intro h
    norm_num [wSemantic, wHeuristic, wVisual] at h ⊢

/-- C1 (amended): for every candidate scored with at least one available
extractor, the composite equals the weighted sum of present sub-scores
under the default weights renormalized so the present weights sum to 1;
for the scenario input `{semantic = 80, heuristic = 60, audio unavailable,
visual = 40}` the composite is exactly `66.25 = 265/4 =
80*(0.40/0.80)+60*(0.25/0.80)+40*(0.15/0.80)`, the present-weight sum
being `0.80`. -/
theorem c1_composite_renormalized (b : ScoreBreakdown)
    (hne : presentPairs b ≠ []) :
    (0 < ((presentPairs b).map Prod.fst).sum
      ∧ ((presentPairs b).map
          (fun wp => wp.1 / ((presentPairs b).map Prod.fst).sum)).sum = 1
      ∧ compositeScore b =
          some (((presentPairs b).map
            (fun wp => (wp.1 / ((presentPairs b).map Prod.fst).sum) * wp.2)).sum))
    ∧ compositeScore ⟨some 80, some 60, none, some 40⟩ = some (265 / 4)
    ∧ (265 / 4 : ℚ) =
        80 * (wSemantic / (wSemantic + wHeuristic + wVisual))
        + 60 * (wHeuristic / (wSemantic + wHeuristic + wVisual))
        + 40 * (wVisual / (wSemantic + wHeuristic + wVisual)) := by
  have hmapne : (presentPairs b).map Prod.fst ≠ [] := by
    intro h
    exact hne (List.map_eq_nil_iff.mp h)
  have hWpos : 0 < ((presentPairs b).map Prod.fst).sum := by
    apply List.sum_pos
    · intro w hw
      rcases List.mem_map.mp hw with ⟨wp, hwp, hw1⟩
      rw [← hw1]
      exact presentPairs_weight_pos b wp hwp
    · exact hmapne
  refine ⟨⟨hWpos, ?_, ?_⟩, scenarioComposite, by norm_num [wSemantic, wHeuristic, wVisual]⟩
  · rw [list_sum_map_div]
    exact div_self (ne_of_gt hWpos)
  · rw [compositeScore_eq_div b hne, list_sum_map_div_mul]

/-- Witness for C1 (amended) at the scenario breakdown. -/
theorem c1_composite_renormalized_witness :
    presentPairs ⟨some 80, some 60, none, some 40⟩ ≠ []
    ∧ compositeScore ⟨some 80, some 60, none, some 40⟩ = some (265 / 4) :=
  ⟨scenarioPairs_ne,
   (c1_composite_renormalized ⟨some 80, some 60, none, some 40⟩ scenarioPairs_ne).2.1⟩

/-- C5 counterexample: the fixed catalog is not the claimed nine names —
it contains a tenth preset `facebook` (app-sidebar.tsx lines 273-284;
part_010's description of backend/services/quality_presets.py), so
resolving `"facebook"` succeeds even though `"facebook"` is outside the
claim's nine-name list. -/
theorem c5_nine_name_counterexample :
    resolvePreset "facebook" =
      .ok ⟨"facebook", 1920, 1080, 30, 4000, 128, "medium", false⟩
    ∧ "facebook" ∉
        ["tiktok", "instagram_reels", "youtube_shorts", "youtube_standard",
         "twitter", "linkedin", "high_quality", "balanced", "fast"] :=
  ⟨rfl, by decide⟩

/-- C5 (amended): preset resolution succeeds exactly on the fixed ten-name
catalog (tiktok, instagram_reels, youtube_shorts, youtube_standard,
twitter, linkedin, facebook, high_quality, balanced, fast), fails with
`UnknownPreset` outside it, and a `submit_export` with an unknown preset
name fails without creating any ExportJob. -/
theorem c5_preset_lookup : ∀ name : String,
    (resolvePreset name = .error .UnknownPreset ↔
      name ∉ presetCatalog.map QualityPreset.name)
    ∧ (name ∈ presetCatalog.map QualityPreset.name →
        ∃ p, resolvePreset name = .ok p ∧ p.name = name)
    ∧ presetCatalog.map QualityPreset.name =
        ["tiktok", "instagram_reels", "youtube_shorts", "youtube_standard",
         "twitter", "linkedin", "facebook", "high_quality", "balanced", "fast"]
    ∧ presetCatalog.map QualityPreset.name = sidebar_quality_presets.map SidebarPresetEntry.id
    ∧ resolvePreset "nonexistent" = .error .UnknownPreset
    ∧ (∀ jobs : List ExportJob, ∀ jobId clipId : String,
        submitExport jobs jobId clipId "nonexistent" = .error .UnknownPreset) := by
  have hnonex : resolvePreset "nonexistent" = .error .UnknownPreset := by rfl
  intro name
  refine ⟨⟨?_, ?_⟩, ?_, by decide, by decide, hnonex, ?_⟩
  · intro hres hmem
    rcases List.mem_map.mp hmem with ⟨p, hp, hpname⟩
    cases hfind : presetCatalog.find? (fun q => q.name == name) with
    | none =>
      have hnone := List.find?_eq_none.mp hfind p hp
      rw [hpname] at hnone
      simp at hnone
    | some q =>
      unfold resolvePreset at hres
      rw [hfind] at hres
      simp at hres
  · intro hnot
    cases hfind : presetCatalog.find? (fun q => q.name == name) with
    | none =>
      unfold resolvePreset
      rw [hfind]
    | some q =>
      have hq := List.find?_some hfind
      have hqmem := List.mem_of_find?_eq_some hfind
      rw [beq_iff_eq] at hq
      exact absurd (List.mem_map.mpr ⟨q, hqmem, hq⟩) hnot
  · intro hmem
    rcases List.mem_map.mp hmem with ⟨p, hp, hpname⟩
    cases hfind : presetCatalog.find? (fun q => q.name == name) with
    | none =>
      have hnone := List.find?_eq_none.mp hfind p hp
      rw [hpname] at hnone
      simp at hnone
    | some q =>
      refine ⟨q, ?_, ?_⟩
      · unfold resolvePreset
        rw [hfind]
      · have hq := List.find?_some hfind
        rwa [beq_iff_eq] at hq
  · intro jobs jobId clipId
    unfold submitExport
    rw [hnonex]

/-- Witness for C5 (the theorem's only binder is universal, discharged at
the concrete names `"nonexistent"` and `"tiktok"`). -/
theorem c5_preset_lookup_witness :
    resolvePreset "nonexistent" = .error .UnknownPreset
    ∧ ∃ p, resolvePreset "tiktok" = .ok p ∧ p.name = "tiktok" :=
  ⟨(c5_preset_lookup "nonexistent").2.2.2.2.1,
   (c5_preset_lookup "tiktok").2.1 (by decide)⟩

theorem jobStep_source_not_terminal {a b : ExportJob} (h : JobStep a b) :
    a.state ≠ JobState.completed ∧ a.state ≠ JobState.failed := by
  cases h with
  | start hq => exact ⟨by rw [hq]; decide, by rw [hq]; decide⟩
  | progressUpdate p m hr hmono hub => exact ⟨by rw [hr]; decide, by rw [hr]; decide⟩
  | complete path hr => exact ⟨by rw [hr]; decide, by rw [hr]; decide⟩
  | fail e hr => exact ⟨by rw [hr]; decide, by rw [hr]; decide⟩

theorem jobStep_progress_le {a b : ExportJob} (h : JobStep a b) :
    a.progress ≤ b.progress := by
  cases h with
  | start hq => exact le_refl _
  | progressUpdate p m hr hmono hub => exact hmono
  | complete path hr => exact le_refl _
  | fail e hr => exact le_refl _

theorem jobObsStep_progress_le {a b : ExportJob} (h : JobObsStep a b) :
    a.progress ≤ b.progress := by
  rcases h with h | h
  · exact jobStep_progress_le h
  · rw [h]

theorem jobStep_progress_bounds {a b : ExportJob} (h : JobStep a b)
    (ha : 0 ≤ a.progress ∧ a.progress ≤ 100) :
    0 ≤ b.progress ∧ b.progress ≤ 100 := by
  cases h with
  | start hq => exact ha
  | progressUpdate p m hr hmono hub => exact ⟨le_trans ha.1 hmono, hub⟩
  | complete path hr => exact ha
  | fail e hr => exact ha

theorem chain_invariant {α : Type} (R : α → α → Prop) (Inv : α → Prop)
    (pres : ∀ a b, R a b → Inv a → Inv b) :
    ∀ (a : α) (l : List α), List.Chain R a l → Inv a → ∀ x ∈ a :: l, Inv x := by
  intro a l
  induction l generalizing a with
  | nil =>
    intro _ ha x hx
    rw [List.mem_singleton] at hx
    rw [hx]
    exact ha
  | cons b tl ih =>
    intro hch ha x hx
    rcases List.chain_cons.mp hch with ⟨hab, hbtl⟩
    rcases List.mem_cons.mp hx with hxa | hxtl
    · rw [hxa]; exact ha
    · exact ih b hbtl (pres a b hab ha) x hxtl

theorem terminal_absorb (j : ExportJob) (l : List ExportJob)
    (h : List.Chain JobObsStep j l)
    (ht : j.state = JobState.completed ∨ j.state = JobState.failed) :
    ∀ x ∈ l, x = j := by
  induction l generalizing j with
  | nil =>
    intro x hx
    exact absurd hx (List.not_mem_nil x)
  | cons b tl ih =>
    intro x hx
    rcases List.chain_cons.mp h with ⟨hjb, hbtl⟩
    have hbj : b = j := by
      rcases hjb with hstep | heq
      · have hnt := jobStep_source_not_terminal hstep
        rcases ht with h1 | h1
        · exact absurd h1 hnt.1
        · exact absurd h1 hnt.2
      · exact heq
    rcases List.mem_cons.mp hx with hxb | hxtl
    · rw [hxb, hbj]
    · have := ih b hbtl (hbj ▸ ht) x hxtl
      rw [this, hbj]

theorem simulatedProgress_eq :
    clipsManagerSimulatedProgress = [0, 10, 20, 30, 40, 50, 60, 70, 80, 90, 100] := rfl

/-- C2: along any run of the export job engine the sequence of progress
values is monotonically non-decreasing and stays in [0,100]; any
monotone sequence of status polls therefore records a non-decreasing
sequence; and the simulated per-clip progress sequence of
`handleExportSelected` (0,10,...,100) is non-decreasing and bounded by
100. -/
theorem c2_progress_monotone (j0 : ExportJob) (js : List ExportJob)
    (h : JobRun j0 js) :
    ((j0 :: js).map ExportJob.progress).Chain' (· ≤ ·)
    ∧ (∀ x ∈ j0 :: js, 0 ≤ x.progress ∧ x.progress ≤ 100)
    ∧ (∀ polls : List (Fin ((j0 :: js).map ExportJob.progress).length),
        polls.Chain' (fun i k => i.val ≤ k.val) →
        (polls.map (fun i => ((j0 :: js).map ExportJob.progress).get i)).Chain'
          (· ≤ ·))
    ∧ clipsManagerSimulatedProgress.Chain' (· ≤ ·)
    ∧ (∀ p ∈ clipsManagerSimulatedProgress, p ≤ 100) := by
  obtain ⟨⟨hq0, hp0⟩, hch⟩ := h
  have hchain : List.Chain (fun a b => a.progress ≤ b.progress) j0 js :=
    List.Chain.imp (fun a b hab => jobObsStep_progress_le hab) hch
  have hchainm : ((j0 :: js).map ExportJob.progress).Chain' (· ≤ ·) := by
    rw [List.chain'_map]
    exact hchain
  refine ⟨hchainm, ?_, ?_, ?_, ?_⟩
  · intro x hx
    refine chain_invariant JobObsStep
      (fun j => 0 ≤ j.progress ∧ j.progress ≤ 100)
      (fun a b hab ha => ?_) j0 js hch
      ⟨by rw [hp0], by rw [hp0]; norm_num⟩ x hx
    rcases hab with hstep | heq
    · exact jobStep_progress_bounds hstep ha
    · rw [heq]; exact ha
  · intro polls hpolls
    have hpw : ((j0 :: js).map ExportJob.progress).Pairwise (· ≤ ·) :=
      List.chain'_iff_pairwise.mp hchainm
    have hget := List.pairwise_iff_get.mp hpw
    have hmono : ∀ i k : Fin ((j0 :: js).map ExportJob.progress).length,
        (i : ℕ) ≤ (k : ℕ) →
        ((j0 :: js).map ExportJob.progress).get i ≤
          ((j0 :: js).map ExportJob.progress).get k := by
      intro i k hik
      rcases lt_or_eq_of_le hik with hlt | heq
      · exact hget i k hlt
      · rw [Fin.ext heq]
    rw [List.chain'_map]
    exact List.Chain'.imp (fun i k hik => hmono i k hik) hpolls
  · rw [simulatedProgress_eq]
    simp [List.chain'_cons]
  · intro p hp
    rw [simulatedProgress_eq] at hp
    fin_cases hp <;> norm_num

/-- Witness for C2 on the concrete run
`queued → rendering → progress 50 ("encoding") → completed`. -/
theorem c2_progress_monotone_witness :
    JobRun jobW0 [jobW1, jobW2, jobW3]
    ∧ (([jobW0, jobW1, jobW2, jobW3]).map ExportJob.progress).Chain' (· ≤ ·) := by
  have hrun : JobRun jobW0 [jobW1, jobW2, jobW3] := by
    refine ⟨⟨rfl, rfl⟩, ?_⟩
    refine List.Chain.cons (Or.inl (JobStep.start jobW0 rfl)) ?_
    refine List.Chain.cons (Or.inl (JobStep.progressUpdate jobW1 50 "encoding" rfl
      (by norm_num [jobW1, jobW0]) (by norm_num))) ?_
    refine List.Chain.cons (Or.inl (JobStep.complete jobW2 "out.mp4" rfl)) ?_
    exact List.Chain.nil
  exact ⟨hrun, (c2_progress_monotone jobW0 [jobW1, jobW2, jobW3] hrun).1⟩

/-- C3: `completed` and `failed` are terminal — no engine transition leaves
them, every status observation after a terminal one is the same record,
and both clients (`pollProgress` in part_004 and `pollJobStatus` in
video-upload.tsx) schedule another poll exactly when the observed status
is not terminal. -/
theorem c3_terminal_states_final (j0 : ExportJob) (js : List ExportJob)
    (h : JobRun j0 js) :
    (∀ a b : ExportJob, JobStep a b →
        a.state ≠ JobState.completed ∧ a.state ≠ JobState.failed)
    ∧ (∀ pre suf : List ExportJob, ∀ j : ExportJob,
        j0 :: js = pre ++ j :: suf →
        (j.state = JobState.completed ∨ j.state = JobState.failed) →
        ∀ x ∈ suf, x = j)
    ∧ (∀ st : JobState, ∀ c : ClientExportState, ∀ p : ℚ, ∀ m : String,
        ∀ d : Option String,
        ((pollProgressUpdate c ⟨statusString st, p, m, d⟩).2 = false ↔
          (st = JobState.completed ∨ st = JobState.failed))
        ∧ (pollJobStatusContinues (statusString st) = false ↔
          (st = JobState.completed ∨ st = JobState.failed))) := by
  refine ⟨fun a b hab => jobStep_source_not_terminal hab, ?_, ?_⟩
  · intro pre suf j heq ht x hx
    have hchain : List.Chain' JobObsStep (j0 :: js) := h.2
    have hsufx : (j :: suf) <:+ (j0 :: js) := by
      rw [heq]
      exact List.suffix_append pre (j :: suf)
    have hsuf : List.Chain' JobObsStep (j :: suf) := hchain.suffix hsufx
    have hchj : List.Chain JobObsStep j suf := hsuf
    exact terminal_absorb j suf hchj ht x hx
  · intro st c p m d
    cases st <;>
      simp [pollProgressUpdate, pollJobStatusContinues, statusString]

/-- Witness for C3 on the concrete completed run: after the job reaches
`completed` at index 3, every later observation is that same record. -/
theorem c3_terminal_states_final_witness :
    JobRun jobW0 [jobW1, jobW2, jobW3]
    ∧ pollJobStatusContinues (statusString JobState.completed) = false := by
  have hrun : JobRun jobW0 [jobW1, jobW2, jobW3] := by
    refine ⟨⟨rfl, rfl⟩, ?_⟩
    refine List.Chain.cons (Or.inl (JobStep.start jobW0 rfl)) ?_
    refine List.Chain.cons (Or.inl (JobStep.progressUpdate jobW1 50 "encoding" rfl
      (by norm_num [jobW1, jobW0]) (by norm_num))) ?_
    refine List.Chain.cons (Or.inl (JobStep.complete jobW2 "out.mp4" rfl)) ?_
    exact List.Chain.nil
  exact ⟨hrun,
    ((c3_terminal_states_final jobW0 [jobW1, jobW2, jobW3] hrun).2.2
      JobState.completed ⟨true, 0, "", none⟩ 0 "" none).2.mpr (Or.inl rfl)⟩

/-- C4 counterexample: `pollProgress` (part_004 lines 185-187) overwrites
the recorded message with the fixed string `"Export failed"` when the
polled status is `failed`, so the displayed message is a generic
substitute, not the job's recorded message. -/
theorem c4_failed_message_counterexample :
    (pollProgressUpdate ⟨true, 0, "Starting export...", none⟩
        ⟨"failed", 42, "renderer error: ffmpeg exited with code 1", none⟩).1.exportMessage
      = "Export failed"
    ∧ "Export failed" ≠ "renderer error: ffmpeg exited with code 1" := by
  exact ⟨rfl, by decide⟩

/-- C4 (amended): the engine captures the renderer's error verbatim into
the failed job's `error` and `message` fields (every transition into
`failed` records some error string in both fields, and from `rendering`
the fail transition with any error string exists); the client, however,
displays the fixed string `"Export failed"` for a failed export rather
than the job's recorded message. -/
theorem c4_error_capture :
    (∀ a b : ExportJob, JobStep a b → b.state = JobState.failed →
        ∃ e : String, b.error = some e ∧ b.message = e)
    ∧ (∀ j : ExportJob, ∀ e : String, j.state = JobState.rendering →
        JobStep j { j with state := JobState.failed, error := some e, message := e })
    ∧ (∀ c : ClientExportState, ∀ s : StatusResponse, s.status = "failed" →
        (pollProgressUpdate c s).1.exportMessage = "Export failed") := by
  refine ⟨?_, fun j e h => JobStep.fail j e h, ?_⟩
  · intro a b hab hb
    cases hab with
    | start hq =>
      have hbs : ({ a with state := JobState.rendering } : ExportJob).state =
          JobState.rendering := rfl
      rw [hbs] at hb
      cases hb
    | progressUpdate p m hr hmono hub =>
      have hbs : ({ a with progress := p, message := m } : ExportJob).state =
          a.state := rfl
      rw [hbs, hr] at hb
      cases hb
    | complete path hr =>
      have hbs : ({ a with state := JobState.completed, artifact_path := some path } : ExportJob).state = JobState.completed := rfl
      rw [hbs] at hb
      cases hb
    | fail e hr => exact ⟨e, rfl, rfl⟩
  · intro c s hs
    simp [pollProgressUpdate, hs]

/-- Witness for C4 (amended) at a concrete client state and failed status
response. -/
theorem c4_error_capture_witness :
    (pollProgressUpdate ⟨true, 0, "", none⟩
        ⟨"failed", 10, "boom", none⟩).1.exportMessage = "Export failed" :=
  c4_error_capture.2.2 ⟨true, 0, "", none⟩ ⟨"failed", 10, "boom", none⟩ rfl

/-- C6: on an all-terminal batch the rollup is `partial_failure` iff at
least one job failed and at least one completed, `failed` iff all failed,
`completed` iff all completed; and in the §8 scenario (three clips, only
job 2 raising a render error) the per-job results are completed, failed,
completed — the failure is data, not an exception — with rollup
`partial_failure`. -/
theorem c6_batch_rollup (states : List JobState) (hne : states ≠ [])
    (hterm : ∀ s ∈ states, s = JobState.completed ∨ s = JobState.failed) :
    ((batchRollup states = BatchStatus.partial_failure ↔
      ((∃ s ∈ states, s = JobState.failed) ∧ (∃ s ∈ states, s = JobState.completed)))
    ∧ (batchRollup states = BatchStatus.failed ↔ ∀ s ∈ states, s = JobState.failed)
    ∧ (batchRollup states = BatchStatus.completed ↔
        ∀ s ∈ states, s = JobState.completed))
    ∧ runBatch renderFailsClip2 ["clip1", "clip2", "clip3"] =
        [JobState.completed, JobState.failed, JobState.completed]
    ∧ batchRollup (runBatch renderFailsClip2 ["clip1", "clip2", "clip3"]) =
        BatchStatus.partial_failure := by
  have hqf : states.any (fun s => s == JobState.queued) = false := by
    rw [List.any_eq_false]
    intro s hs
    rcases hterm s hs with h | h <;> rw [h] <;> decide
  have hrf : states.any (fun s => s == JobState.rendering) = false := by
    rw [List.any_eq_false]
    intro s hs
    rcases hterm s hs with h | h <;> rw [h] <;> decide
  refine ⟨?_, by decide, by decide⟩
  by_cases hac : states.all (fun s => s == JobState.completed) = true
  · have hallc : ∀ s ∈ states, s = JobState.completed := by
      intro s hs
      exact eq_of_beq (List.all_eq_true.mp hac s hs)
    have hroll : batchRollup states = BatchStatus.completed := by
      simp [batchRollup, hqf, hrf, hac]
    refine ⟨?_, ?_, ?_⟩
    · rw [hroll]
      constructor
      · intro habs; exact absurd habs (by decide)
      · rintro ⟨⟨s, hs, hsf⟩, -⟩
        have hc := hallc s hs
        rw [hc] at hsf
        exact absurd hsf (by decide)
    · rw [hroll]
      constructor
      · intro habs; exact absurd habs (by decide)
      · intro hall
        rcases states with - | ⟨s0, tl⟩
        · exact absurd rfl hne
        · have h1 := hallc s0 (List.mem_cons_self s0 tl)
          have h2 := hall s0 (List.mem_cons_self s0 tl)
          rw [h1] at h2
          exact absurd h2 (by decide)
    · rw [hroll]
      exact ⟨fun _ => hallc, fun _ => rfl⟩
  · by_cases haf : states.all (fun s => s == JobState.failed) = true
    · have hallf : ∀ s ∈ states, s = JobState.failed := by
        intro s hs
        exact eq_of_beq (List.all_eq_true.mp haf s hs)
      have hroll : batchRollup states = BatchStatus.failed := by
        simp [batchRollup, hqf, hrf, hac, haf]
      refine ⟨?_, ?_, ?_⟩
      · rw [hroll]
        constructor
        · intro habs; exact absurd habs (by decide)
        · rintro ⟨-, ⟨s, hs, hsc⟩⟩
          have hf := hallf s hs
          rw [hf] at hsc
          exact absurd hsc (by decide)
      · rw [hroll]
        exact ⟨fun _ => hallf, fun _ => rfl⟩
      · rw [hroll]
        constructor
        · intro habs; exact absurd habs (by decide)
        · intro hallc2
          rcases states with - | ⟨s0, tl⟩
          · exact absurd rfl hne
          · have h1 := hallf s0 (List.mem_cons_self s0 tl)
            have h2 := hallc2 s0 (List.mem_cons_self s0 tl)
            rw [h1] at h2
            exact absurd h2 (by decide)
    · have hexf : ∃ s ∈ states, s = JobState.failed := by
        by_contra hno
        push_neg at hno
        apply hac
        rw [List.all_eq_true]
        intro s hs
        rcases hterm s hs with h | h
        · rw [h]; decide
        · exact absurd h (hno s hs)
      have hexc : ∃ s ∈ states, s = JobState.completed := by
        by_contra hno
        push_neg at hno
        apply haf
        rw [List.all_eq_true]
        intro s hs
        rcases hterm s hs with h | h
        · exact absurd h (hno s hs)
        · rw [h]; decide
      have hroll : batchRollup states = BatchStatus.partial_failure := by
        simp [batchRollup, hqf, hrf, hac, haf]
      refine ⟨?_, ?_, ?_⟩
      · rw [hroll]
        exact ⟨fun _ => ⟨hexf, hexc⟩, fun _ => rfl⟩
      · rw [hroll]
        constructor
        · intro habs; exact absurd habs (by decide)
        · intro hallf2
          rcases hexc with ⟨s, hs, hsc⟩
          have hf := hallf2 s hs
          rw [hf] at hsc
          exact absurd hsc (by decide)
      · rw [hroll]
        constructor
        · intro habs; exact absurd habs (by decide)
        · intro hallc2
          rcases hexf with ⟨s, hs, hsf⟩
          have hc := hallc2 s hs
          rw [hc] at hsf
          exact absurd hsf (by decide)

/-- Witness for C6 at the scenario's terminal states. -/
theorem c6_batch_rollup_witness :
    ([JobState.completed, JobState.failed, JobState.completed] ≠
      ([] : List JobState))
    ∧ batchRollup [JobState.completed, JobState.failed, JobState.completed] =
        BatchStatus.partial_failure := by
  have h := c6_batch_rollup
    [JobState.completed, JobState.failed, JobState.completed]
    (by decide) (by decide)
  exact ⟨by decide,
    h.1.1.mpr ⟨⟨JobState.failed, by decide, rfl⟩,
      ⟨JobState.completed, by decide, rfl⟩⟩⟩

theorem uploadStep_shape {a b : UFile} (h : UploadStep a b) :
    b.progress = a.progress ∨ b.progress = a.progress + 10
      ∨ (b.progress = 100 ∧ b.status = "processing") := by
  cases h with
  | tickLow h => exact Or.inr (Or.inl rfl)
  | tickHigh h => exact Or.inl rfl
  | success h => exact Or.inr (Or.inr ⟨rfl, rfl⟩)
  | failure h => exact Or.inl rfl

theorem uploadStep_inv {a b : UFile} (h : UploadStep a b)
    (ha : ((a.status = "uploading" ∨ a.status = "error")
        ∧ 10 ∣ a.progress ∧ a.progress ≤ 90)
      ∨ (a.status = "processing" ∧ a.progress = 100)) :
    ((b.status = "uploading" ∨ b.status = "error")
        ∧ 10 ∣ b.progress ∧ b.progress ≤ 90)
      ∨ (b.status = "processing" ∧ b.progress = 100) := by
  cases h with
  | tickLow h =>
    rcases ha with ⟨hst, hdvd, hle⟩ | ⟨hst, hp⟩
    · left
      refine ⟨hst, Dvd.dvd.add hdvd (by norm_num), ?_⟩
      rcases hdvd with ⟨c, hc⟩
      show a.progress + 10 ≤ 90
      omega
    · exfalso
      rw [hp] at h
      omega
  | tickHigh h => exact ha
  | success h => exact Or.inr ⟨rfl, rfl⟩
  | failure h =>
    rcases ha with ⟨-, hdvd, hle⟩ | ⟨hst, -⟩
    · exact Or.inl ⟨Or.inr rfl, hdvd, hle⟩
    · rw [hst] at h
      exact absurd h (by decide)

theorem uploadStep_absorbed {a b : UFile} (h : UploadStep a b) :
    uploadAbsorbed a b := by
  cases h with
  | tickLow h => exact ⟨fun hs => hs, fun hs => hs⟩
  | tickHigh h => exact ⟨id, id⟩
  | success hup =>
    refine ⟨fun hs => ?_, fun _ => rfl⟩
    rw [hup] at hs
    exact absurd hs (by decide)
  | failure hup =>
    refine ⟨fun _ => rfl, fun hs => ?_⟩
    rw [hup] at hs
    exact absurd hs (by decide)

/-- C9: while an upload request is in flight, the simulated per-file
progress only moves in steps of 10 (or jumps to 100 on the success
response) and never exceeds 90 before the success response; progress is
100 only with status "processing" (set only after the server responded
successfully); and in any run in which the request errored, no observed
state ever has progress 100. -/
theorem c9_upload_progress (f0 : UFile) (fs : List UFile)
    (h : UploadRun f0 fs) :
    (∀ a b : UFile, UploadStep a b →
        b.progress = a.progress ∨ b.progress = a.progress + 10
          ∨ (b.progress = 100 ∧ b.status = "processing"))
    ∧ (∀ x ∈ f0 :: fs, x.progress = 100 → x.status = "processing")
    ∧ (∀ x ∈ f0 :: fs, x.status ≠ "processing" →
        10 ∣ x.progress ∧ x.progress ≤ 90)
    ∧ ((∃ x ∈ f0 :: fs, x.status = "error") →
        ∀ y ∈ f0 :: fs, y.progress ≠ 100) := by
  obtain ⟨⟨hp0, hs0⟩, hch⟩ := h
  have hinv : ∀ x ∈ f0 :: fs,
      ((x.status = "uploading" ∨ x.status = "error")
          ∧ 10 ∣ x.progress ∧ x.progress ≤ 90)
        ∨ (x.status = "processing" ∧ x.progress = 100) := by
    refine chain_invariant UploadStep
      (fun f => ((f.status = "uploading" ∨ f.status = "error")
          ∧ 10 ∣ f.progress ∧ f.progress ≤ 90)
        ∨ (f.status = "processing" ∧ f.progress = 100))
      (fun a b hab ha => uploadStep_inv hab ha) f0 fs hch ?_
    left
    exact ⟨Or.inl hs0, by rw [hp0]; exact dvd_zero 10, by rw [hp0]; norm_num⟩
  have hproc100 : ∀ x ∈ f0 :: fs, x.progress = 100 → x.status = "processing" := by
    intro x hx h100
    rcases hinv x hx with ⟨-, -, hle⟩ | ⟨hst, -⟩
    · rw [h100] at hle
      omega
    · exact hst
  refine ⟨fun a b hab => uploadStep_shape hab, hproc100, ?_, ?_⟩
  · intro x hx hnp
    rcases hinv x hx with ⟨-, hdvd, hle⟩ | ⟨hst, -⟩
    · exact ⟨hdvd, hle⟩
    · exact absurd hst hnp
  · rintro ⟨x, hx, hxe⟩ y hy hy100
    have hyproc : y.status = "processing" := hproc100 y hy hy100
    have hchA : List.Chain uploadAbsorbed f0 fs :=
      List.Chain.imp (fun a b hab => uploadStep_absorbed hab) hch
    have hchA2 : List.Chain' uploadAbsorbed (f0 :: fs) := hchA
    have hpw : (f0 :: fs).Pairwise uploadAbsorbed :=
      List.chain'_iff_pairwise.mp hchA2
    have hget := List.pairwise_iff_get.mp hpw
    obtain ⟨i, hi⟩ := List.mem_iff_get.mp hx
    obtain ⟨j, hj⟩ := List.mem_iff_get.mp hy
    rcases lt_trichotomy i j with hlt | heqij | hgt
    · have hab := hget i j hlt
      have herr : ((f0 :: fs).get j).status = "error" := hab.1 (by rw [hi]; exact hxe)
      rw [hj, hyproc] at herr
      exact absurd herr (by decide)
    · have hxy : x = y := by rw [← hi, ← hj, heqij]
      rw [hxy, hyproc] at hxe
      exact absurd hxe (by decide)
    · have hab := hget j i hgt
      have hprc : ((f0 :: fs).get i).status = "processing" :=
        hab.2 (by rw [hj]; exact hyproc)
      rw [hi, hxe] at hprc
      exact absurd hprc (by decide)

/-- Witness for C9 on the concrete run: one interval tick
(progress 0 → 10), then a request error; no state reaches 100. -/
theorem c9_upload_progress_witness :
    UploadRun uW0 [uW1, uW2]
    ∧ (∀ y ∈ uW0 :: [uW1, uW2], y.progress ≠ 100) := by
  have hrun : UploadRun uW0 [uW1, uW2] := by
    refine ⟨⟨rfl, rfl⟩, ?_⟩
    refine List.Chain.cons (UploadStep.tickLow uW0 (by decide)) ?_
    refine List.Chain.cons (UploadStep.failure uW1 rfl) ?_
    exact List.Chain.nil
  exact ⟨hrun,
    (c9_upload_progress uW0 [uW1, uW2] hrun).2.2.2 ⟨uW2, by decide, rfl⟩⟩

theorem countP_set_eq (p : JobState → Bool) :
    ∀ (js : List JobState) (i : ℕ) (hi : i < js.length) (v : JobState),
      (js.set i v).countP p + (if p (js.get ⟨i, hi⟩) then 1 else 0)
        = js.countP p + (if p v then 1 else 0) := by
  intro js
  induction js with
  | nil =>
    intro i hi v
    exact absurd hi (by simp)
  | cons a tl ih =>
    intro i hi v
    cases i with
    | zero =>
      simp only [List.set, List.countP_cons, List.get]
      omega
    | succ n =>
      have hn : n < tl.length := Nat.lt_of_succ_lt_succ hi
      simp only [List.set, List.countP_cons, List.get]
      have := ih n hn v
      omega

theorem poolStep_bound {N : ℕ} {js js' : List JobState}
    (h : PoolStep N js js') (hb : countRendering js ≤ N) :
    countRendering js' ≤ N := by
  cases h with
  | pickup i hi hq hc =>
    have hcc := countP_set_eq (fun s => s == JobState.rendering) js i hi
      JobState.rendering
    rw [hq] at hcc
    simp only [show (JobState.queued == JobState.rendering) = false from rfl,
      show (JobState.rendering == JobState.rendering) = true from rfl,
      if_true, if_false] at hcc
    unfold countRendering at hc ⊢
    omega
  | finish i hi hr t ht =>
    have hcc := countP_set_eq (fun s => s == JobState.rendering) js i hi t
    rw [hr] at hcc
    have htf : (t == JobState.rendering) = false := by
      rcases ht with h1 | h1 <;> rw [h1] <;> rfl
    rw [htf] at hcc
    simp at hcc
    unfold countRendering at hb ⊢
    omega

theorem exportLoop_count_le_one (U : List String) (hU : U.Nodup) :
    ∀ (rest : List String) (m : String → Option String),
      countProcessing U m = 0 →
      ∀ m' ∈ exportLoopTrace m rest, countProcessing U m' ≤ 1 := by
  intro rest
  induction rest with
  | nil =>
    intro m h0 m' hm'
    rw [exportLoopTrace, List.mem_singleton] at hm'
    rw [hm', h0]
    omega
  | cons c rest ih =>
    intro m h0 m' hm'
    rw [exportLoopTrace] at hm'
    rcases List.mem_cons.mp hm' with h1 | hm2
    · rw [h1, h0]
      omega
    rcases List.mem_cons.mp hm2 with h2 | hm3
    · rw [h2]
      have hz := List.countP_eq_zero.mp h0
      have hle : countProcessing U (setStatus m c "processing") ≤
          U.countP (fun x => x == c) := by
        apply List.countP_mono_left
        intro x hx hpx
        by_cases hxc : x = c
        · rw [hxc]
          exact beq_self_eq_true c
        · exfalso
          unfold setStatus at hpx
          rw [if_neg hxc] at hpx
          exact hz x hx hpx
      have hcc : U.countP (fun x => x == c) = U.count c := rfl
      have hone : U.count c ≤ 1 := List.nodup_iff_count_le_one.mp hU c
      omega
    · refine ih (setStatus (setStatus m c "processing") c "completed") ?_ m' hm3
      apply List.countP_eq_zero.mpr
      intro x hx
      unfold setStatus
      by_cases hxc : x = c
      · rw [if_pos hxc]
        decide
      · rw [if_neg hxc, if_neg hxc]
        exact List.countP_eq_zero.mp h0 x hx

/-- C7: along any schedule of the bounded worker pool with concurrency
bound N, starting from a batch of queued jobs, at most N jobs are
rendering at any time; and the frontend's sequential export loop
(`handleExportSelected`) keeps at most one selected clip in the
"processing" status at any point of its trace. -/
theorem c7_bounded_concurrency (N : ℕ) (js0 : List JobState)
    (trace : List (List JobState))
    (hinit : ∀ s ∈ js0, s = JobState.queued)
    (hch : List.Chain (PoolStep N) js0 trace) :
    (∀ js ∈ js0 :: trace, countRendering js ≤ N)
    ∧ (∀ ids : List String, ids.Nodup →
        ∀ m ∈ exportLoopTrace (fun _ => none) ids,
          countProcessing ids m ≤ 1) := by
  constructor
  · refine chain_invariant (PoolStep N) (fun js => countRendering js ≤ N)
      (fun a b hab ha => poolStep_bound hab ha) js0 trace hch ?_
    have h0 : countRendering js0 = 0 := by
      apply List.countP_eq_zero.mpr
      intro s hs
      rw [hinit s hs]
      decide
    show countRendering js0 ≤ N
    rw [h0]
    exact Nat.zero_le N
  · intro ids hnd m hm
    refine exportLoop_count_le_one ids hnd ids (fun _ => none) ?_ m hm
    apply List.countP_eq_zero.mpr
    intro x hx
    show ¬((none : Option String) == some "processing") = true
    decide

/-- Witness for C7: pool bound 2 over three queued jobs with one pickup
step, and the loop over two distinct clips. -/
theorem c7_bounded_concurrency_witness :
    (∀ s ∈ [JobState.queued, JobState.queued, JobState.queued],
        s = JobState.queued)
    ∧ (∀ js ∈ [JobState.queued, JobState.queued, JobState.queued] ::
        [[JobState.rendering, JobState.queued, JobState.queued]],
        countRendering js ≤ 2) := by
  have hch : List.Chain (PoolStep 2)
      [JobState.queued, JobState.queued, JobState.queued]
      [[JobState.rendering, JobState.queued, JobState.queued]] := by
    refine List.Chain.cons ?_ List.Chain.nil
    exact PoolStep.pickup _ 0 (by decide) rfl (by decide)
  exact ⟨by decide,
    (c7_bounded_concurrency 2 _ _ (by decide) hch).1⟩
